import Mathlib

/-!
Verification of the Pixellator real-time ASCII-video pipeline.

This file is a shallow embedding of the parts of `main.py` and
`audio_player.py` that the verified properties talk about: the three
frame-to-ASCII converter variants, the frame extractor, the batching
converter loop, the line-diff based ANSI renderer, and the audio
player's callback, drift synchronizer and shutdown.

Modelling conventions:
* 8-bit pixel channels and all machine integers are `Nat` (the Python
  values involved never overflow or go negative on the paths modelled).
* Python's float arithmetic for `new_height = int(aspect_ratio * new_width
  * 0.5)` is modelled exactly over the rationals, which for these
  nonnegative quantities is the natural-number division
  `H * w / (2 * W)`; audio clock arithmetic is modelled over `ℚ`.
* `cv2.resize` is an external library call (the spec lists video
  decoding / image resampling as external collaborators); it is modelled
  as a sampling function `resize` that produces one source-derived pixel
  per destination cell.  All properties proved here depend only on the
  output dimensions of the resize and on the per-pixel maps applied to
  its result, never on the interpolated pixel values.
* Queues are modelled as the lists of items passing through them, and
  the converter / renderer loops as functions from those lists to the
  lists of items (or write events) they produce.
-/

/-! ## Pixel data model -/

/-- A pixel as stored in a decoded OpenCV frame: three 8-bit channels in
BGR order. -/
structure Pix where
  b : Nat
  g : Nat
  r : Nat
deriving DecidableEq

/-- A pixel after the `cv2.COLOR_BGR2RGB` conversion: the same three
channels read in RGB order. -/
structure Rgb where
  r : Nat
  g : Nat
  b : Nat
deriving DecidableEq

/-- The default pixel used for out-of-range samples in the resize model. -/
def pix0 : Pix := ⟨0, 0, 0⟩

/-- A pixel whose channels fit in 8 bits, as every channel of a decoded
`uint8` BGR frame does. -/
def Pix8 (p : Pix) : Prop := p.b ≤ 255 ∧ p.g ≤ 255 ∧ p.r ≤ 255

instance Pix8.decidable (p : Pix) : Decidable (Pix8 p) :=
  inferInstanceAs (Decidable (p.b ≤ 255 ∧ p.g ≤ 255 ∧ p.r ≤ 255))

/-- The character ramp `ASCII_CHARS` of `main.py` line 26, ordered from
lightest to darkest (67 glyphs, space first). -/
def ASCII_CHARS : String :=
  " .'`^\",:;Il!i~+_-?][\x7d\x7b1)(|\\/tfjrxnuvczXYUJCLQ0OZmwqpdbkhao*#MW&8%B@"

/-- The look-up table `ASCII_LUT` (`main.py` line 28): the ramp as an
indexable sequence of characters. -/
def asciiChars : List Char := ASCII_CHARS.toList

/-- The `cv2.COLOR_BGR2RGB` channel reinterpretation applied to one pixel. -/
def rgbOf (p : Pix) : Rgb := ⟨p.r, p.g, p.b⟩

/-- Per-pixel luminance `np.mean(rgb_frame, axis=2).astype(np.uint8)`
(`main.py` line 55): the mean of the three channels truncated to an
integer, which for exact arithmetic is natural division by 3. -/
def lumaOf (q : Rgb) : Nat := (q.r + q.g + q.b) / 3

/-- The LUT index `brightness * (len(ASCII_CHARS) - 1) // 255`
(`main.py` line 57). -/
def charIndexOf (l : Nat) : Nat := l * (asciiChars.length - 1) / 255

/-- The LUT lookup `ASCII_LUT[idx]` (`main.py` line 58); the index is
always in range, so the default is irrelevant. -/
def glyphOf (idx : Nat) : Char := asciiChars.getD idx ' '

/-- The xterm-256 cube index `16 + 36*r6 + 6*g6 + b6` with each channel
quantized by `(c * 6) // 256` (`main.py` lines 151-154). -/
def colorIndexOf (q : Rgb) : Nat :=
  16 + 36 * (q.r * 6 / 256) + 6 * (q.g * 6 / 256) + q.b * 6 / 256

/-- One ANSI-colored cell of the `frame_to_ascii` output
(`main.py` lines 65-77): `ESC[38;2;R;G;Bm<char>ESC[0m`. -/
def ansiCell (q : Rgb) (c : Char) : String :=
  "\x1b[38;2;" ++ toString q.r ++ ";" ++ toString q.g ++ ";" ++ toString q.b ++ "m"
    ++ String.singleton c ++ "\x1b[0m"

/-! ## Resizing front end shared by the three converters -/

/-- Width of a decoded frame (`frame.shape[:2]`); all rows of a decoded
frame have this length. -/
def frameWidth (f : List (List Pix)) : Nat := (f.headD []).length

/-- The output height `int(aspect_ratio * new_width * 0.5)` computed by
every converter (`main.py` lines 46-47, 99-100, 131-133) with
`aspect_ratio = height / width`, evaluated in exact arithmetic:
`floor ((H / W) * w * 0.5) = H * w / (2 * W)` in natural division. -/
def newHeight (H W w : Nat) : Nat := H * w / (2 * W)

/-- One destination pixel of the modelled `cv2.resize`: a nearest-style
sample of the source frame.  Only the fact that the sample is drawn from
the source frame (or is `pix0` out of range) is ever used. -/
def samplePix (f : List (List Pix)) (h w i j : Nat) : Pix :=
  (f.getD (i * f.length / max h 1) []).getD (j * frameWidth f / max w 1) pix0

/-- Modelled `cv2.resize(frame, (w, h))`: an `h × w` grid of pixels
sampled from the source frame. -/
def resize (f : List (List Pix)) (w h : Nat) : List (List Pix) :=
  (List.range h).map fun i => (List.range w).map fun j => samplePix f h w i j

/-- The resized image used by `frame_to_ascii` and
`frame_to_ascii_curses`, whose height is `int(aspect_ratio * new_width *
0.5)` with no lower clamp (`main.py` lines 47 and 100). -/
def resizedOf (frame : List (List Pix)) (w : Nat) : List (List Pix) :=
  resize frame w (newHeight frame.length (frameWidth frame) w)

/-- The resized image used by `frame_to_ascii_curses_color`, whose
height is clamped to at least 1 (`main.py` line 133:
`max(int(aspect_ratio * new_width * 0.5), 1)`). -/
def resizedClampedOf (frame : List (List Pix)) (w : Nat) : List (List Pix) :=
  resize frame w (max (newHeight frame.length (frameWidth frame) w) 1)

/-- Elementwise BGR→RGB conversion of a grid (`cv2.cvtColor`). -/
def rgbGrid (g : List (List Pix)) : List (List Rgb) :=
  g.map fun row => row.map rgbOf

/-- Elementwise luminance of a grid (`np.mean(..., axis=2)`). -/
def lumaGrid (g : List (List Rgb)) : List (List Nat) :=
  g.map fun row => row.map lumaOf

/-- Elementwise LUT-index computation of a grid (`main.py` line 57). -/
def charIndexGrid (g : List (List Nat)) : List (List Nat) :=
  g.map fun row => row.map charIndexOf

/-- Elementwise LUT lookup of a grid (`ASCII_LUT[char_indices]`). -/
def glyphGrid (g : List (List Nat)) : List (List Char) :=
  g.map fun row => row.map glyphOf

/-! ## The three converter variants -/

/-- `frame_to_ascii_curses` (`main.py` lines 84-111): the plain
monochrome converter.  The source joins the rows with newlines into one
string; the grid of characters is modelled directly (the renderer splits
the string back into exactly these rows). -/
def frame_to_ascii_curses (frame : List (List Pix)) (w : Nat) : List (List Char) :=
  glyphGrid (charIndexGrid (lumaGrid (rgbGrid (resizedOf frame w))))

/-- `frame_to_ascii` (`main.py` lines 31-81): the ANSI-colored
converter.  Each cell is the escape-wrapped glyph built elementwise from
the RGB grid and the glyph grid (`np.char.add` chain, lines 70-77); the
source joins cells and rows into one string, modelled as the grid of
cell strings. -/
def frame_to_ascii (frame : List (List Pix)) (w : Nat) : List (List String) :=
  List.zipWith (fun rr cr => List.zipWith ansiCell rr cr)
    (rgbGrid (resizedOf frame w))
    (glyphGrid (charIndexGrid (lumaGrid (rgbGrid (resizedOf frame w)))))

/-- `frame_to_ascii_curses_color` (`main.py` lines 114-164): the curses
color converter, producing per cell a pair of the glyph and the xterm-256
palette index. -/
def frame_to_ascii_curses_color (frame : List (List Pix)) (w : Nat) :
    List (List (Char × Nat)) :=
  List.zipWith (fun rr cr => List.zipWith (fun q c => (c, colorIndexOf q)) rr cr)
    (rgbGrid (resizedClampedOf frame w))
    (glyphGrid (charIndexGrid (lumaGrid (rgbGrid (resizedClampedOf frame w)))))

/-- Cell accessor for a 2-D grid with a default. -/
def cellD {γ : Type} (g : List (List γ)) (i j : Nat) (d : γ) : γ :=
  (g.getD i []).getD j d

/-! ## Extractor -/

/-- `extract_frames` (`main.py` lines 167-192), as the sequence of items
the extractor places on `raw_queue`.  `opened` is the result of
`cap.isOpened()` at start and `reads` are the frames successfully read
before the first failing read.  When the open fails the function prints
an error and returns before entering the `try/finally`, so nothing at
all is enqueued; otherwise the frames are enqueued in order and the
`finally` block enqueues the single `None` end-of-stream marker. -/
def extract_frames {α : Type} (opened : Bool) (reads : List α) : List (Option α) :=
  if opened then reads.map some ++ [none] else []

/-! ## Converter loop (`convert_frames`, `main.py` lines 195-237)

The raw queue is modelled as the list of items the extractor placed on
it, in order; `none` is the end-of-stream marker.  `collectBatch k`
models the inner collection loop (lines 213-221): it takes up to `k`
items, stops early when the queue is exhausted (the `queue.Empty`
branch) and, on dequeuing `none`, sets the stop event and breaks with
the batch collected so far.  The outer loop converts each batch in order
(`pool.map` preserves input order) and enqueues the converted frames in
order; the conversion-latency metric attached to each item is ignored
here, since the properties are about the frames. -/

/-- One pass of the batch-collection loop: returns the collected frames,
the remaining queue contents, and whether the stop event was set. -/
def collectBatch {α : Type} : Nat → List (Option α) → List α × List (Option α) × Bool
  | 0, input => ([], input, false)
  | _ + 1, [] => ([], [], false)
  | _ + 1, none :: rest => ([], rest, true)
  | n + 1, some f :: rest =>
    let r := collectBatch n rest
    (f :: r.1, r.2.1, r.2.2)

/-- The outer `while not stop_event.is_set()` loop of `convert_frames`,
driven by fuel (one unit per iteration; `input.length + 1` units always
suffice when the batch size is at least 1).  An exhausted queue ends the
modelled run, standing for the real loop idling on `queue.Empty`. -/
def convertLoop {α β : Type} (conv : α → β) (k : Nat) : Nat → List (Option α) → List β
  | 0, _ => []
  | fuel + 1, input =>
    (collectBatch k input).1.map conv ++
      (if (collectBatch k input).2.2 then []
       else if input.isEmpty then [] else convertLoop conv k fuel (collectBatch k input).2.1)

/-- `convert_frames`: the full sequence of converted frames enqueued on
`ascii_queue` for a given input queue content and batch size. -/
def convert_frames {α β : Type} (conv : α → β) (k : Nat) (input : List (Option α)) :
    List β :=
  convertLoop conv k (input.length + 1) input

/-- The frames before the end-of-stream marker: exactly the frames the
converter ever converts. -/
def framesBeforeEOS {α : Type} : List (Option α) → List α
  | [] => []
  | none :: _ => []
  | some f :: rest => f :: framesBeforeEOS rest

/-- Observable events of the converter loop, for the temporal claim
about the order of the stop signal and the batch flush. -/
inductive PipeEv (β : Type) where
  | setStop : PipeEv β
  | enqueue : β → PipeEv β
deriving DecidableEq

/-- The event trace of one modelled `convert_frames` run: inside an
iteration that dequeues the end-of-stream marker, `stop_event.set()`
(`main.py` line 219) happens during batch collection, hence before the
partial batch is converted and enqueued (lines 226-237). -/
def traceLoop {α β : Type} (conv : α → β) (k : Nat) :
    Nat → List (Option α) → List (PipeEv β)
  | 0, _ => []
  | fuel + 1, input =>
    (if (collectBatch k input).2.2 then [PipeEv.setStop] else []) ++
      (collectBatch k input).1.map (fun f => PipeEv.enqueue (conv f)) ++
      (if (collectBatch k input).2.2 then []
       else if input.isEmpty then [] else traceLoop conv k fuel (collectBatch k input).2.1)

/-- The full event trace of `convert_frames` on a given queue content. -/
def converter_trace {α β : Type} (conv : α → β) (k : Nat) (input : List (Option α)) :
    List (PipeEv β) :=
  traceLoop conv k (input.length + 1) input

/-- The enqueued value of an event, if it is an enqueue. -/
def enqVal {β : Type} : PipeEv β → Option β
  | PipeEv.setStop => none
  | PipeEv.enqueue x => some x

/-- Decides whether a trace performs no enqueue after the stop signal is
set, i.e. whether any flush precedes the stop signal. -/
def noEnqueueAfterStop {β : Type} : List (PipeEv β) → Bool
  | [] => true
  | PipeEv.setStop :: rest =>
    rest.all fun e => match e with
      | PipeEv.enqueue _ => false
      | PipeEv.setStop => true
  | PipeEv.enqueue _ :: rest => noEnqueueAfterStop rest

/-! ## ANSI direct-write renderer (`main.py` lines 240-349)

Frames are handled as their lists of lines (`ascii_frame.split("\n")`),
and lines as lists of characters.  The terminal is a character grid:
a function from row and column to the character shown there, with blank
cells holding a space.  A line write at row `i` (the source writes
`ESC[i+1;1H` followed by the line) overwrites the row from column 0 for
the length of the written line and leaves the rest of the row. -/

/-- Character-by-character comparison loop of `fast_diff_lines`
(`main.py` lines 269-273): true when some position of the first list
is beyond or different from the second. -/
def charsDiffer : List Char → List Char → Bool
  | [], _ => false
  | _ :: _, [] => true
  | c :: cs, d :: ds => c != d || charsDiffer cs ds

/-- Per-line test of `fast_diff_lines` (`main.py` lines 264-273): lines
of different length differ; lines of equal length differ when some
character differs. -/
def lineDiffers (nl ol : List Char) : Bool :=
  if nl.length ≠ ol.length then true else charsDiffer nl ol

/-- `fast_diff_lines(new_lines, old_lines, max_lines)` (`main.py` lines
240-275): the indices below `max_lines` whose lines differ; an index
beyond a list reads as the empty line (so two out-of-range indices never
differ, matching the `continue` on line 258). -/
def fast_diff_lines (newLines oldLines : List (List Char)) (maxLines : Nat) : List Nat :=
  (List.range maxLines).filter fun i =>
    lineDiffers (newLines.getD i []) (oldLines.getD i [])

/-- Space padding of a written line (`main.py` lines 339-342): when the
new line is shorter than `n` (the old visible length), append spaces up
to `n`. -/
def padLine (l : List Char) (n : Nat) : List Char :=
  if l.length < n then l ++ List.replicate (n - l.length) ' ' else l

/-- The per-frame writes of `render_frames_sys_partial` on the diff path
(`main.py` lines 334-343): for each differing index `i` that is a row of
the new frame, one cursor move to row `i+1` column 1 followed by the new
line, padded with spaces to the old line's length when the new line is
shorter.  Indices at or beyond the new frame's line count are skipped by
the `if i < len(frame_lines)` guard. -/
def emitWrites (newLines prevLines : List (List Char)) : List (Nat × List Char) :=
  (fast_diff_lines newLines prevLines (max newLines.length prevLines.length)).filterMap
    fun i =>
      if i < newLines.length then
        some (i, padLine (newLines.getD i [])
          (if i < prevLines.length then (prevLines.getD i []).length else 0))
      else none

/-- A terminal character grid: the character at each row and column. -/
def Term : Type := Nat → Nat → Char

/-- The grid showing a frame: each row shows its line, blank beyond it. -/
def initTerm (lines : List (List Char)) : Term :=
  fun i j => (lines.getD i []).getD j ' '

/-- Applying one write: the cursor moves to row `row` column 1 and the
characters of `s` are written there in sequence. -/
def writeAt (t : Term) (row : Nat) (s : List Char) : Term :=
  fun i j => if i = row ∧ j < s.length then s.getD j ' ' else t i j

/-- Applying a sequence of writes in order. -/
def applyWrites (t : Term) (ws : List (Nat × List Char)) : Term :=
  ws.foldl (fun acc wr => writeAt acc wr.1 wr.2) t

/-! ## Audio player (`audio_player.py`) -/

/-- Mutable audio-player state seen by the callback: the audio clock
(`audio_time`, in seconds) and the pending `set_time` commands on
`sync_queue`, each carrying a target time. -/
structure APState where
  audio_time : ℚ
  pending : List ℚ

/-- Result of one `_audio_callback` invocation: the audio clock after
the call, whether the stop event was set (end of stream), and the span
of real samples delivered, as the start sample index and their count
(`none` when the buffer was only zero-filled). -/
structure CbResult where
  audio_time : ℚ
  stopped : Bool
  delivered : Option (ℤ × Nat)

/-- One step of the command drain (`audio_player.py` lines 127-139): if
the command time differs from the current audio clock by more than the
tolerance, snap the clock to it and recompute the start sample index as
`int(new_time * samplerate)` (floor, for the nonnegative times used). -/
def snapStep (sr tol : ℚ) (acc : ℚ × ℤ) (t : ℚ) : ℚ × ℤ :=
  if tol < |acc.1 - t| then (t, Int.floor (t * sr)) else acc

/-- Draining every pending command in FIFO order. -/
def snapFold (sr tol : ℚ) (acc : ℚ × ℤ) (cmds : List ℚ) : ℚ × ℤ :=
  cmds.foldl (snapStep sr tol) acc

namespace AudioPlayer

/-- `AudioPlayer._audio_callback` (`audio_player.py` lines 91-164) for a
device request of `frames` samples against a PCM buffer of `total`
samples: compute the start index from the audio clock; if it is at or
past the end, zero-fill and stop; otherwise advance the clock by
`frames / samplerate`, drain the pending sync commands (snapping the
clock and the start index on large drift), then deliver the samples from
the (possibly recomputed) start index, stopping with a partial or empty
delivery when the span crosses the end of the buffer. -/
def audio_callback (sr tol : ℚ) (total frames : Nat) (st : APState) : CbResult :=
  let start0 : ℤ := Int.floor (st.audio_time * sr)
  if (total : ℤ) ≤ start0 then
    { audio_time := st.audio_time, stopped := true, delivered := none }
  else
    let snapped := snapFold sr tol (st.audio_time + (frames : ℚ) / sr, start0) st.pending
    if snapped.2 + (frames : ℤ) ≤ (total : ℤ) then
      { audio_time := snapped.1, stopped := false, delivered := some (snapped.2, frames) }
    else if 0 < (total : ℤ) - snapped.2 then
      { audio_time := snapped.1, stopped := true,
        delivered := some (snapped.2, ((total : ℤ) - snapped.2).toNat) }
    else
      { audio_time := snapped.1, stopped := true, delivered := none }

/-- `AudioPlayer.update_video_time` (`audio_player.py` lines 214-231):
record the video clock and enqueue a `set_time` command only when the
drift exceeds the tolerance. -/
def update_video_time (tol audio_time t : ℚ) (pending : List ℚ) : List ℚ :=
  if tol < |audio_time - t| then pending ++ [t] else pending

/-- The fields of an `AudioPlayer` read or written by `stop`
(`audio_player.py` lines 233-275).  The resource handles are abstract. -/
structure State (S C A : Type) where
  should_stop : Bool
  stream : Option S
  audio_clip : Option C
  audio_array : Option A
  initialized : Bool
  playback_started : Bool

/-- `AudioPlayer.stop`: when `should_stop` is already set the method
returns at once (line 240-242); otherwise it sets the flag, aborts and
drops the stream, releases the clip and the PCM array, and clears the
`initialized` and `playback_started` flags. -/
def stop {S C A : Type} (st : State S C A) : State S C A :=
  if st.should_stop then st
  else
    { should_stop := true, stream := none, audio_clip := none,
      audio_array := none, initialized := false, playback_started := false }

end AudioPlayer

/-! ## Helper lemmas on list indexing -/

theorem getD_of_length_le {γ : Type} (l : List γ) (i : Nat) (d : γ)
    (h : l.length ≤ i) : l.getD i d = d := by
  induction l generalizing i with
  | nil => simp [List.getD_nil]
  | cons a t ih =>
    cases i with
    | zero => simp at h
    | succ n =>
      simp only [List.getD_cons_succ]
      exact ih n (Nat.le_of_succ_le_succ h)

theorem getD_map_of_lt {γ δ : Type} (f : γ → δ) (l : List γ) (i : Nat)
    (h : i < l.length) (d : δ) (e : γ) : (l.map f).getD i d = f (l.getD i e) := by
  induction l generalizing i with
  | nil => simp at h
  | cons a t ih =>
    cases i with
    | zero => simp [List.getD_cons_zero]
    | succ n =>
      simp only [List.map_cons, List.getD_cons_succ]
      exact ih n (Nat.lt_of_succ_lt_succ h) 

theorem getD_zipWith_of_lt {γ δ ε : Type} (f : γ → δ → ε) (a : List γ) (b : List δ)
    (i : Nat) (ha : i < a.length) (hb : i < b.length) (de : ε) (da : γ) (db : δ) :
    (List.zipWith f a b).getD i de = f (a.getD i da) (b.getD i db) := by
  induction a generalizing b i with
  | nil => simp at ha
  | cons x xs ih =>
    cases b with
    | nil => simp at hb
    | cons y ys =>
      cases i with
      | zero => simp [List.getD_cons_zero]
      | succ n =>
        simp only [List.zipWith_cons_cons, List.getD_cons_succ]
        exact ih ys n (Nat.lt_of_succ_lt_succ ha) (Nat.lt_of_succ_lt_succ hb)

theorem getD_mem_or_default {γ : Type} (l : List γ) (i : Nat) (d : γ) :
    l.getD i d ∈ l ∨ l.getD i d = d := by
  induction l generalizing i with
  | nil => right; simp [List.getD_nil]
  | cons a t ih =>
    cases i with
    | zero => left; simp [List.getD_cons_zero]
    | succ n =>
      simp only [List.getD_cons_succ]
      rcases ih n with h | h
      · left; exact List.mem_cons_of_mem a h
      · right; exact h

theorem getD_append_left {γ : Type} (a b : List γ) (i : Nat) (d : γ)
    (h : i < a.length) : (a ++ b).getD i d = a.getD i d := by
  induction a generalizing i with
  | nil => simp at h
  | cons x xs ih =>
    cases i with
    | zero => simp [List.getD_cons_zero]
    | succ n =>
      simp only [List.cons_append, List.getD_cons_succ]
      exact ih n (Nat.lt_of_succ_lt_succ h)

theorem getD_replicate_self {γ : Type} (n i : Nat) (d : γ) :
    (List.replicate n d).getD i d = d := by
  induction n generalizing i with
  | zero => simp [List.getD_nil]
  | succ m ih =>
    cases i with
    | zero => simp [List.replicate_succ, List.getD_cons_zero]
    | succ k => simp only [List.replicate_succ, List.getD_cons_succ]; exact ih k

/-! ## Shape lemmas for the resize front end and the converters -/

theorem getD_range {n i : Nat} (h : i < n) (d : Nat) :
    (List.range n).getD i d = i := by
  simp [List.getD_eq_getElem?_getD, List.getElem?_range, h]

theorem resize_length (f : List (List Pix)) (w h : Nat) :
    (resize f w h).length = h := by
  simp [resize]

theorem resize_getD (f : List (List Pix)) (w h i : Nat) (hi : i < h) :
    (resize f w h).getD i [] = (List.range w).map fun j => samplePix f h w i j := by
  unfold resize
  rw [getD_map_of_lt _ _ i (by simpa using hi) _ 0, getD_range hi 0]

theorem resize_row_length (f : List (List Pix)) (w h i : Nat) (hi : i < h) :
    ((resize f w h).getD i []).length = w := by
  rw [resize_getD f w h i hi]; simp

theorem resize_cellD (f : List (List Pix)) (w h i j : Nat) (hi : i < h) (hj : j < w) :
    cellD (resize f w h) i j pix0 = samplePix f h w i j := by
  unfold cellD
  rw [resize_getD f w h i hi]
  rw [getD_map_of_lt _ _ j (by simpa using hj) _ 0, getD_range hj 0]

theorem mapGrid_length {γ δ : Type} (f : γ → δ) (g : List (List γ)) :
    (g.map fun row => row.map f).length = g.length := by simp

theorem mapGrid_row_length {γ δ : Type} (f : γ → δ) (g : List (List γ)) (i : Nat)
    (hi : i < g.length) :
    ((g.map fun row => row.map f).getD i []).length = (g.getD i []).length := by
  rw [getD_map_of_lt _ _ i hi _ []]
  simp

theorem cellD_mapGrid {γ δ : Type} (f : γ → δ) (g : List (List γ)) (i j : Nat)
    (hi : i < g.length) (hj : j < (g.getD i []).length) (dδ : δ) (dγ : γ) :
    cellD (g.map fun row => row.map f) i j dδ = f (cellD g i j dγ) := by
  unfold cellD
  rw [getD_map_of_lt _ _ i hi _ []]
  exact getD_map_of_lt f _ j hj dδ dγ

/-! ## Shape and cell lemmas for the three converters -/

theorem asciiChars_length : asciiChars.length = 67 := by decide

/-- A grid with `h` rows, each of length `w`. -/
def GridShape {γ : Type} (g : List (List γ)) (h w : Nat) : Prop :=
  g.length = h ∧ ∀ i < h, (g.getD i []).length = w

theorem gridShape_resize (f : List (List Pix)) (w h : Nat) :
    GridShape (resize f w h) h w := by
  refine ⟨resize_length f w h, fun i hi => resize_row_length f w h i hi⟩

theorem gridShape_map {γ δ : Type} (f : γ → δ) {g : List (List γ)} {h w : Nat}
    (hs : GridShape g h w) :
    GridShape (g.map fun row => row.map f) h w := by
  obtain ⟨hl, hr⟩ := hs
  refine ⟨by simp [hl], fun i hi => ?_⟩
  rw [mapGrid_row_length f g i (by rw [hl]; exact hi)]
  exact hr i hi

theorem gridShape_zipWith {γ δ ε : Type} (f : γ → δ → ε)
    {A : List (List γ)} {B : List (List δ)} {h w : Nat}
    (ha : GridShape A h w) (hb : GridShape B h w) :
    GridShape (List.zipWith (fun ra rb => List.zipWith f ra rb) A B) h w := by
  obtain ⟨hal, har⟩ := ha
  obtain ⟨hbl, hbr⟩ := hb
  refine ⟨by simp [hal, hbl], fun i hi => ?_⟩
  rw [getD_zipWith_of_lt _ _ _ i (by rw [hal]; exact hi) (by rw [hbl]; exact hi) [] [] []]
  rw [List.length_zipWith, har i hi, hbr i hi, Nat.min_self]

theorem cellD_mapShape {γ δ : Type} (f : γ → δ) {g : List (List γ)} {h w : Nat}
    (hs : GridShape g h w) {i j : Nat} (hi : i < h) (hj : j < w) (dδ : δ) (dγ : γ) :
    cellD (g.map fun row => row.map f) i j dδ = f (cellD g i j dγ) := by
  exact cellD_mapGrid f g i j (by rw [hs.1]; exact hi)
    (by rw [hs.2 i hi]; exact hj) dδ dγ

theorem cellD_zipWithShape {γ δ ε : Type} (f : γ → δ → ε)
    {A : List (List γ)} {B : List (List δ)} {h w : Nat}
    (ha : GridShape A h w) (hb : GridShape B h w) {i j : Nat}
    (hi : i < h) (hj : j < w) (dε : ε) (dγ : γ) (dδ : δ) :
    cellD (List.zipWith (fun ra rb => List.zipWith f ra rb) A B) i j dε
      = f (cellD A i j dγ) (cellD B i j dδ) := by
  unfold cellD
  rw [getD_zipWith_of_lt _ _ _ i (by rw [ha.1]; exact hi) (by rw [hb.1]; exact hi) [] [] []]
  rw [getD_zipWith_of_lt f _ _ j (by rw [ha.2 i hi]; exact hj) (by rw [hb.2 i hi]; exact hj) dε dγ dδ]

theorem gridShape_frame_to_ascii_curses (frame : List (List Pix)) (w : Nat) :
    GridShape (frame_to_ascii_curses frame w)
      (newHeight frame.length (frameWidth frame) w) w :=
  gridShape_map _ (gridShape_map _ (gridShape_map _ (gridShape_map _
    (gridShape_resize frame w _))))

theorem gridShape_frame_to_ascii (frame : List (List Pix)) (w : Nat) :
    GridShape (frame_to_ascii frame w)
      (newHeight frame.length (frameWidth frame) w) w :=
  gridShape_zipWith _ (gridShape_map _ (gridShape_resize frame w _))
    (gridShape_map _ (gridShape_map _ (gridShape_map _ (gridShape_map _
      (gridShape_resize frame w _)))))

theorem gridShape_frame_to_ascii_curses_color (frame : List (List Pix)) (w : Nat) :
    GridShape (frame_to_ascii_curses_color frame w)
      (max (newHeight frame.length (frameWidth frame) w) 1) w :=
  gridShape_zipWith _ (gridShape_map _ (gridShape_resize frame w _))
    (gridShape_map _ (gridShape_map _ (gridShape_map _ (gridShape_map _
      (gridShape_resize frame w _)))))

theorem frame_to_ascii_curses_cellD (frame : List (List Pix)) (w i j : Nat)
    (hi : i < newHeight frame.length (frameWidth frame) w) (hj : j < w) :
    cellD (frame_to_ascii_curses frame w) i j ' '
      = glyphOf (charIndexOf (lumaOf (rgbOf (cellD (resizedOf frame w) i j pix0)))) := by
  unfold frame_to_ascii_curses glyphGrid charIndexGrid lumaGrid rgbGrid resizedOf
  rw [cellD_mapShape _ (gridShape_map _ (gridShape_map _ (gridShape_map _
        (gridShape_resize frame w _)))) hi hj _ 0,
      cellD_mapShape _ (gridShape_map _ (gridShape_map _
        (gridShape_resize frame w _))) hi hj _ 0,
      cellD_mapShape _ (gridShape_map _ (gridShape_resize frame w _)) hi hj _ ⟨0, 0, 0⟩,
      cellD_mapShape _ (gridShape_resize frame w _) hi hj _ pix0]

theorem frame_to_ascii_cellD (frame : List (List Pix)) (w i j : Nat)
    (hi : i < newHeight frame.length (frameWidth frame) w) (hj : j < w) :
    cellD (frame_to_ascii frame w) i j ""
      = ansiCell (rgbOf (cellD (resizedOf frame w) i j pix0))
          (glyphOf (charIndexOf (lumaOf (rgbOf (cellD (resizedOf frame w) i j pix0))))) := by
  unfold frame_to_ascii resizedOf glyphGrid charIndexGrid lumaGrid rgbGrid
  rw [cellD_zipWithShape ansiCell (gridShape_map _ (gridShape_resize frame w _))
      (gridShape_map _ (gridShape_map _ (gridShape_map _ (gridShape_map _
        (gridShape_resize frame w _))))) hi hj "" ⟨0, 0, 0⟩ ' ']
  rw [cellD_mapShape _ (gridShape_resize frame w _) hi hj _ pix0,
      cellD_mapShape _ (gridShape_map _ (gridShape_map _ (gridShape_map _
        (gridShape_resize frame w _)))) hi hj _ 0,
      cellD_mapShape _ (gridShape_map _ (gridShape_map _
        (gridShape_resize frame w _))) hi hj _ 0,
      cellD_mapShape _ (gridShape_map _ (gridShape_resize frame w _)) hi hj _ ⟨0, 0, 0⟩,
      cellD_mapShape _ (gridShape_resize frame w _) hi hj _ pix0]

theorem frame_to_ascii_curses_color_cellD (frame : List (List Pix)) (w i j : Nat)
    (hi : i < max (newHeight frame.length (frameWidth frame) w) 1) (hj : j < w) :
    cellD (frame_to_ascii_curses_color frame w) i j (' ', 0)
      = (glyphOf (charIndexOf (lumaOf (rgbOf (cellD (resizedClampedOf frame w) i j pix0)))),
         colorIndexOf (rgbOf (cellD (resizedClampedOf frame w) i j pix0))) := by
  unfold frame_to_ascii_curses_color resizedClampedOf glyphGrid charIndexGrid lumaGrid rgbGrid
  rw [cellD_zipWithShape (fun q c => (c, colorIndexOf q))
      (gridShape_map _ (gridShape_resize frame w _))
      (gridShape_map _ (gridShape_map _ (gridShape_map _ (gridShape_map _
        (gridShape_resize frame w _))))) hi hj (' ', 0) ⟨0, 0, 0⟩ ' ']
  rw [cellD_mapShape _ (gridShape_resize frame w _) hi hj _ pix0,
      cellD_mapShape _ (gridShape_map _ (gridShape_map _ (gridShape_map _
        (gridShape_resize frame w _)))) hi hj _ 0,
      cellD_mapShape _ (gridShape_map _ (gridShape_map _
        (gridShape_resize frame w _))) hi hj _ 0,
      cellD_mapShape _ (gridShape_map _ (gridShape_resize frame w _)) hi hj _ ⟨0, 0, 0⟩,
      cellD_mapShape _ (gridShape_resize frame w _) hi hj _ pix0]

/-! ## Lemmas about the line diff and the write model -/

theorem charsDiffer_eq_false {a b : List Char} (h : a.length = b.length) :
    charsDiffer a b = false ↔ a = b := by
  induction a generalizing b with
  | nil =>
    cases b with
    | nil => simp [charsDiffer]
    | cons y ys => simp at h
  | cons x xs ih =>
    cases b with
    | nil => simp at h
    | cons y ys =>
      simp only [charsDiffer, Bool.or_eq_false_iff, bne_eq_false_iff_eq, List.cons.injEq]
      constructor
      · rintro ⟨rfl, hrest⟩
        exact ⟨rfl, (ih (by simpa using h)).mp hrest⟩
      · rintro ⟨rfl, rfl⟩
        exact ⟨rfl, (ih rfl).mpr rfl⟩

theorem lineDiffers_eq_false {a b : List Char} :
    lineDiffers a b = false ↔ a = b := by
  unfold lineDiffers
  by_cases h : a.length = b.length
  · rw [if_neg (by simp [h])]
    exact charsDiffer_eq_false h
  · rw [if_pos h]
    constructor
    · intro hc; exact absurd hc (by decide)
    · rintro rfl; exact absurd rfl h

theorem mem_fast_diff_lines {newLines oldLines : List (List Char)} {maxLines i : Nat} :
    i ∈ fast_diff_lines newLines oldLines maxLines
      ↔ i < maxLines ∧ lineDiffers (newLines.getD i []) (oldLines.getD i []) = true := by
  unfold fast_diff_lines
  rw [List.mem_filter, List.mem_range]

theorem padLine_getD (l : List Char) (n j : Nat) :
    (padLine l n).getD j ' ' = l.getD j ' ' := by
  unfold padLine
  split
  · by_cases hj : j < l.length
    · exact getD_append_left l _ j ' ' hj
    · rw [getD_of_length_le l j ' ' (Nat.le_of_not_lt hj)]
      by_cases hj2 : j < (l ++ List.replicate (n - l.length) ' ').length
      · have : (l ++ List.replicate (n - l.length) ' ').getD j ' '
            = (List.replicate (n - l.length) ' ').getD (j - l.length) ' ' := by
          rw [List.getD_eq_getElem?_getD, List.getElem?_append_right (Nat.le_of_not_lt hj),
            ← List.getD_eq_getElem?_getD]
        rw [this, getD_replicate_self]
      · exact getD_of_length_le _ j ' ' (Nat.le_of_not_lt hj2)
  · rfl

theorem padLine_length (l : List Char) (n : Nat) :
    (padLine l n).length = max l.length n := by
  unfold padLine
  split
  · rename_i h
    simp [List.length_append, List.length_replicate]
    omega
  · rename_i h
    simp at h
    omega

theorem mem_emitWrites {newLines prevLines : List (List Char)} {p : Nat × List Char} :
    p ∈ emitWrites newLines prevLines
      ↔ p.1 ∈ fast_diff_lines newLines prevLines (max newLines.length prevLines.length)
        ∧ p.1 < newLines.length
        ∧ p.2 = padLine (newLines.getD p.1 [])
            (if p.1 < prevLines.length then (prevLines.getD p.1 []).length else 0) := by
  unfold emitWrites
  rw [List.mem_filterMap]
  constructor
  · rintro ⟨i, hmem, hsome⟩
    by_cases hi : i < newLines.length
    · rw [if_pos hi] at hsome
      obtain rfl := Option.some.inj hsome
      exact ⟨hmem, hi, rfl⟩
    · rw [if_neg hi] at hsome
      exact absurd hsome (by simp)
  · rintro ⟨hmem, hi, hp⟩
    refine ⟨p.1, hmem, ?_⟩
    rw [if_pos hi]
    cases p
    simp_all

theorem applyWrites_of_ne (t : Term) (ws : List (Nat × List Char)) (i j : Nat)
    (h : ∀ p ∈ ws, p.1 ≠ i) : applyWrites t ws i j = t i j := by
  induction ws generalizing t with
  | nil => rfl
  | cons p rest ih =>
    unfold applyWrites
    simp only [List.foldl_cons]
    rw [show (List.foldl (fun acc wr => writeAt acc wr.1 wr.2) (writeAt t p.1 p.2) rest)
        = applyWrites (writeAt t p.1 p.2) rest from rfl]
    rw [ih (writeAt t p.1 p.2) (fun q hq => h q (List.mem_cons_of_mem p hq))]
    unfold writeAt
    rw [if_neg]
    intro ⟨hi, _⟩
    exact h p (List.mem_cons_self p rest) hi.symm

theorem applyWrites_of_mem (t : Term) (ws : List (Nat × List Char)) (i j : Nat)
    (s : List Char) (hmem : (i, s) ∈ ws) (huniq : ∀ p ∈ ws, p.1 = i → p.2 = s) :
    applyWrites t ws i j = if j < s.length then s.getD j ' ' else t i j := by
  induction ws generalizing t with
  | nil => simp at hmem
  | cons p rest ih =>
    unfold applyWrites
    simp only [List.foldl_cons]
    rw [show (List.foldl (fun acc wr => writeAt acc wr.1 wr.2) (writeAt t p.1 p.2) rest)
        = applyWrites (writeAt t p.1 p.2) rest from rfl]
    by_cases hrest : (i, s) ∈ rest
    · rw [ih (writeAt t p.1 p.2) hrest (fun q hq => huniq q (List.mem_cons_of_mem p hq))]
      by_cases hj : j < s.length
      · rw [if_pos hj, if_pos hj]
      · rw [if_neg hj, if_neg hj]
        unfold writeAt
        rw [if_neg]
        intro hc
        have hs := huniq p (List.mem_cons_self p rest) hc.1.symm
        rw [hs] at hc
        exact hj hc.2
    · have hphead : p = (i, s) := by
        rcases List.mem_cons.mp hmem with h | h
        · exact h.symm
        · exact absurd h hrest
      subst hphead
      have hnone : ∀ q ∈ rest, q.1 ≠ i := by
        intro q hq hqi
        have h2 := huniq q (List.mem_cons_of_mem _ hq) hqi
        have : q = (i, s) := by cases q; simp_all
        exact hrest (this ▸ hq)
      rw [applyWrites_of_ne _ rest i j hnone]
      unfold writeAt
      by_cases hj : j < s.length
      · rw [if_pos ⟨rfl, hj⟩, if_pos hj]
      · rw [if_neg (by intro ⟨_, hc⟩; exact hj hc), if_neg hj]

/-! ## Claims C2 and C9: diff correctness of the ANSI direct-write renderer -/

/-- C2: for every pair of a previous mirror and a new frame (both as
lists of lines, no terminal resize), applying the cursor-move and line
writes emitted by `render_frames_sys_partial` — including the space
padding appended when a new line is shorter than the old one — to a
character-grid terminal that starts equal to the previous mirror yields
a grid equal to the new frame on every row of the new frame.  (Rows at
or beyond the new frame's line count are the subject of claim C9.) -/
theorem c2_ansi_diff_correct (prevL newL : List (List Char)) (i j : Nat)
    (hi : i < newL.length) :
    applyWrites (initTerm prevL) (emitWrites newL prevL) i j = initTerm newL i j := by
  by_cases hd : lineDiffers (newL.getD i []) (prevL.getD i []) = true
  · have hmem : (i, padLine (newL.getD i [])
        (if i < prevL.length then (prevL.getD i []).length else 0)) ∈ emitWrites newL prevL :=
      mem_emitWrites.mpr
        ⟨mem_fast_diff_lines.mpr ⟨Nat.lt_of_lt_of_le hi (Nat.le_max_left _ _), hd⟩, hi, rfl⟩
    have huniq : ∀ p ∈ emitWrites newL prevL, p.1 = i →
        p.2 = padLine (newL.getD i [])
          (if i < prevL.length then (prevL.getD i []).length else 0) := by
      intro p hp hpi
      obtain ⟨_, _, hpad⟩ := mem_emitWrites.mp hp
      rw [hpi] at hpad
      exact hpad
    rw [applyWrites_of_mem _ _ i j _ hmem huniq]
    by_cases hj : j < (padLine (newL.getD i [])
        (if i < prevL.length then (prevL.getD i []).length else 0)).length
    · rw [if_pos hj, padLine_getD]
      rfl
    · rw [if_neg hj]
      have hlen := padLine_length (newL.getD i [])
        (if i < prevL.length then (prevL.getD i []).length else 0)
      have hj2 : (newL.getD i []).length ≤ j := by omega
      have hnle : (if i < prevL.length then (prevL.getD i []).length else 0) ≤ j := by omega
      unfold initTerm
      rw [getD_of_length_le _ j ' ' hj2]
      by_cases hip : i < prevL.length
      · rw [if_pos hip] at hnle
        rw [getD_of_length_le _ j ' ' hnle]
      · rw [getD_of_length_le prevL i [] (Nat.le_of_not_lt hip)]
        simp [List.getD_nil]
  · have heq : newL.getD i [] = prevL.getD i [] :=
      lineDiffers_eq_false.mp (Bool.not_eq_true _ ▸ hd)
    have hno : ∀ p ∈ emitWrites newL prevL, p.1 ≠ i := by
      intro p hp hpi
      obtain ⟨hdiff, _, _⟩ := mem_emitWrites.mp hp
      rw [hpi] at hdiff
      exact hd (mem_fast_diff_lines.mp hdiff).2
    rw [applyWrites_of_ne _ _ i j hno]
    unfold initTerm
    rw [heq]

/-- Witness for C2 at a concrete pair: previous mirror `ab / cd`, new
frame `x / cd`; after the emitted writes (row 0 rewritten as `x` padded
with one space) the terminal shows the new frame at row 0, column 1. -/
theorem c2_ansi_diff_correct_witness :
    applyWrites (initTerm [['a', 'b'], ['c', 'd']])
        (emitWrites [['x'], ['c', 'd']] [['a', 'b'], ['c', 'd']]) 0 1
      = initTerm [['x'], ['c', 'd']] 0 1 :=
  c2_ansi_diff_correct [['a', 'b'], ['c', 'd']] [['x'], ['c', 'd']] 0 1 (by decide)

/-- C9 (implicit): with no terminal resize, when the new frame has fewer
lines than the previous mirror no write is emitted for any row index at
or beyond the new frame's line count — even though `fast_diff_lines`
reports every such index whose old line is nonempty as differing — so
the old content of those trailing rows remains on the terminal
unchanged. -/
theorem c9_trailing_rows_untouched (prevL newL : List (List Char)) :
    (∀ p ∈ emitWrites newL prevL, p.1 < newL.length)
  ∧ (∀ i j, newL.length ≤ i →
      applyWrites (initTerm prevL) (emitWrites newL prevL) i j = initTerm prevL i j)
  ∧ (∀ i, newL.length ≤ i → i < prevL.length → prevL.getD i [] ≠ [] →
      i ∈ fast_diff_lines newL prevL (max newL.length prevL.length)) := by
  refine ⟨?_, ?_, ?_⟩
  · intro p hp
    exact (mem_emitWrites.mp hp).2.1
  · intro i j hle
    refine applyWrites_of_ne _ _ i j ?_
    intro p hp hpi
    have := (mem_emitWrites.mp hp).2.1
    omega
  · intro i hle hlt hne
    refine mem_fast_diff_lines.mpr ⟨Nat.lt_of_lt_of_le hlt (Nat.le_max_right _ _), ?_⟩
    rw [getD_of_length_le newL i [] hle]
    unfold lineDiffers
    rw [if_pos]
    simp only [List.length_nil, ne_eq]
    intro hc
    exact hne (List.length_eq_zero.mp hc.symm)

/-- Witness for C9: previous mirror `a / b`, new frame `c` (one line
shorter).  Row 1 keeps its old character `b`, and the line diff does
report index 1 as differing. -/
theorem c9_trailing_rows_untouched_witness :
    applyWrites (initTerm [['a'], ['b']]) (emitWrites [['c']] [['a'], ['b']]) 1 0
        = initTerm [['a'], ['b']] 1 0
  ∧ 1 ∈ fast_diff_lines [['c']] [['a'], ['b']] (max 1 2) :=
  ⟨(c9_trailing_rows_untouched [['a'], ['b']] [['c']]).2.1 1 0 (by decide),
   (c9_trailing_rows_untouched [['a'], ['b']] [['c']]).2.2 1 (by decide) (by decide)
     (by decide)⟩

/-! ## Claims C1, C3, C4: converter output dimensions and per-pixel maps -/

/-- A 2x2 solid-gray decoded frame (every channel 128). -/
def gray2 : List (List Pix) :=
  [[⟨128, 128, 128⟩, ⟨128, 128, 128⟩], [⟨128, 128, 128⟩, ⟨128, 128, 128⟩]]

/-- A degenerate 1x2 decoded frame: height 1, width 2. -/
def shortFrame : List (List Pix) := [[⟨128, 128, 128⟩, ⟨128, 128, 128⟩]]

/-- C1 counterexample: for the 1x2 frame and target width 1 the claimed
row count is `max 1 (floor(H/W * w * 0.5)) = max 1 0 = 1`, but
`frame_to_ascii` computes `new_height = int(aspect_ratio * new_width *
0.5) = 0` with no clamp (`main.py` line 47) and so produces 0 rows. -/
theorem c1_counterexample :
    ¬ (frame_to_ascii shortFrame 1).length
        = max 1 (newHeight shortFrame.length (frameWidth shortFrame) 1) := by
  decide

/-- C1 (amended): only `frame_to_ascii_curses_color` clamps the row
count to at least 1; `frame_to_ascii` and `frame_to_ascii_curses` use
the unclamped `int(aspect_ratio * new_width * 0.5)`.  Whenever that
floor is at least 1 — every non-degenerate frame — all three variants
produce exactly `max 1 (floor(H/W * w * 0.5))` rows, each of visible
width `w` (for the ANSI variant a row's visible width is its number of
escape-wrapped single-glyph cells); the color variant's row count equals
the clamped height unconditionally. -/
theorem c1_amended_dimensions (frame : List (List Pix)) (w : Nat)
    (_hW : 0 < frameWidth frame)
    (hnh : 1 ≤ newHeight frame.length (frameWidth frame) w) :
    ((frame_to_ascii_curses frame w).length
        = max 1 (newHeight frame.length (frameWidth frame) w)
      ∧ ∀ i < max 1 (newHeight frame.length (frameWidth frame) w),
          ((frame_to_ascii_curses frame w).getD i []).length = w)
  ∧ ((frame_to_ascii frame w).length
        = max 1 (newHeight frame.length (frameWidth frame) w)
      ∧ ∀ i < max 1 (newHeight frame.length (frameWidth frame) w),
          ((frame_to_ascii frame w).getD i []).length = w)
  ∧ ((frame_to_ascii_curses_color frame w).length
        = max 1 (newHeight frame.length (frameWidth frame) w)
      ∧ ∀ i < max 1 (newHeight frame.length (frameWidth frame) w),
          ((frame_to_ascii_curses_color frame w).getD i []).length = w)
  ∧ ∀ (g : List (List Pix)) (w2 : Nat),
      (frame_to_ascii_curses_color g w2).length
        = max (newHeight g.length (frameWidth g) w2) 1 := by
  have hmax : max 1 (newHeight frame.length (frameWidth frame) w)
      = newHeight frame.length (frameWidth frame) w := by omega
  have hmax2 : max (newHeight frame.length (frameWidth frame) w) 1
      = newHeight frame.length (frameWidth frame) w := by omega
  have s1 := gridShape_frame_to_ascii_curses frame w
  have s2 := gridShape_frame_to_ascii frame w
  have s3 := gridShape_frame_to_ascii_curses_color frame w
  refine ⟨⟨by rw [s1.1, hmax], fun i hi => s1.2 i (by omega)⟩,
          ⟨by rw [s2.1, hmax], fun i hi => s2.2 i (by omega)⟩,
          ⟨by rw [s3.1, hmax2, hmax], fun i hi => s3.2 i (by omega)⟩,
          fun g w2 => (gridShape_frame_to_ascii_curses_color g w2).1⟩

/-- Witness for C1 at the 2x2 gray frame with target width 2: the floor
height is 1, and each variant produces 1 row of width 2. -/
theorem c1_amended_dimensions_witness :
    0 < frameWidth gray2
  ∧ 1 ≤ newHeight gray2.length (frameWidth gray2) 2
  ∧ (frame_to_ascii_curses gray2 2).length
      = max 1 (newHeight gray2.length (frameWidth gray2) 2)
  ∧ ((frame_to_ascii gray2 2).getD 0 []).length = 2 :=
  ⟨by decide, by decide,
   (c1_amended_dimensions gray2 2 (by decide) (by decide)).1.1,
   (c1_amended_dimensions gray2 2 (by decide) (by decide)).2.1.2 0 (by decide)⟩

/-- C3: every converter variant chooses for each cell the glyph
`charset[floor(luma * 66 / 255)]` of the corresponding resized pixel,
where `luma = (R+G+B)/3` truncated to an integer, and the charset is the
fixed 67-glyph ramp with the space at index 0. -/
theorem c3_glyph_choice (frame : List (List Pix)) (w i j : Nat)
    (hi : i < newHeight frame.length (frameWidth frame) w) (hj : j < w) :
    asciiChars.length = 67
  ∧ asciiChars.getD 0 '@' = ' '
  ∧ cellD (frame_to_ascii_curses frame w) i j ' '
      = asciiChars.getD (lumaOf (rgbOf (cellD (resizedOf frame w) i j pix0)) * 66 / 255) ' '
  ∧ cellD (frame_to_ascii frame w) i j ""
      = ansiCell (rgbOf (cellD (resizedOf frame w) i j pix0))
          (asciiChars.getD (lumaOf (rgbOf (cellD (resizedOf frame w) i j pix0)) * 66 / 255) ' ')
  ∧ (cellD (frame_to_ascii_curses_color frame w) i j (' ', 0)).1
      = asciiChars.getD
          (lumaOf (rgbOf (cellD (resizedClampedOf frame w) i j pix0)) * 66 / 255) ' ' := by
  have hglyph : ∀ l : Nat, glyphOf (charIndexOf l) = asciiChars.getD (l * 66 / 255) ' ' := by
    intro l
    unfold glyphOf charIndexOf
    rw [asciiChars_length]
  have hic : i < max (newHeight frame.length (frameWidth frame) w) 1 :=
    Nat.lt_of_lt_of_le hi (Nat.le_max_left _ _)
  refine ⟨asciiChars_length, by decide, ?_, ?_, ?_⟩
  · rw [frame_to_ascii_curses_cellD frame w i j hi hj, hglyph]
  · rw [frame_to_ascii_cellD frame w i j hi hj, hglyph]
  · rw [frame_to_ascii_curses_color_cellD frame w i j hic hj, hglyph]

/-- Witness for C3 at the 2x2 gray frame, width 2, cell (0,0): the
gray pixel has luma 128 and glyph index `128 * 66 / 255 = 33`. -/
theorem c3_glyph_choice_witness :
    cellD (frame_to_ascii_curses gray2 2) 0 0 ' '
      = asciiChars.getD (lumaOf (rgbOf (cellD (resizedOf gray2 2) 0 0 pix0)) * 66 / 255) ' '
  ∧ lumaOf (rgbOf (cellD (resizedOf gray2 2) 0 0 pix0)) * 66 / 255 = 33 :=
  ⟨(c3_glyph_choice gray2 2 0 0 (by decide) (by decide)).2.2.1, by decide⟩

/-- Bound used by C4: an 8-bit channel quantizes into the 6-step cube. -/
theorem quant6_le_5 (c : Nat) (h : c ≤ 255) : c * 6 / 256 ≤ 5 := by
  have h1 : c * 6 ≤ 1530 := by omega
  have h2 : c * 6 / 256 ≤ 1530 / 256 := Nat.div_le_div_right h1
  exact h2.trans (by decide)

/-- The cube index of an 8-bit RGB pixel lies in `[16, 231]`. -/
theorem colorIndexOf_bounds (q : Rgb) (hr : q.r ≤ 255) (hg : q.g ≤ 255)
    (hb : q.b ≤ 255) : 16 ≤ colorIndexOf q ∧ colorIndexOf q ≤ 231 := by
  unfold colorIndexOf
  have h1 := quant6_le_5 q.r hr
  have h2 := quant6_le_5 q.g hg
  have h3 := quant6_le_5 q.b hb
  omega

/-- Every sample drawn by the resize model from an 8-bit frame is 8-bit. -/
theorem samplePix_Pix8 (f : List (List Pix)) (h w i j : Nat)
    (hpix : ∀ row ∈ f, ∀ p ∈ row, Pix8 p) : Pix8 (samplePix f h w i j) := by
  unfold samplePix
  rcases getD_mem_or_default f (i * f.length / max h 1) [] with hrow | hrow
  · rcases getD_mem_or_default (f.getD (i * f.length / max h 1) [])
        (j * frameWidth f / max w 1) pix0 with hp | hp
    · exact hpix _ hrow _ hp
    · rw [hp]; exact ⟨Nat.zero_le _, Nat.zero_le _, Nat.zero_le _⟩
  · rw [hrow]
    simp only [List.getD_nil]
    exact ⟨Nat.zero_le _, Nat.zero_le _, Nat.zero_le _⟩

/-- C4: for every 8-bit frame, the ColorCells converter emits for each
cell the palette index `16 + 36*(R*6/256) + 6*(G*6/256) + (B*6/256)` of
the corresponding resized pixel, and for every 8-bit input this index
lies in `{16, ..., 231}`. -/
theorem c4_palette_index (frame : List (List Pix)) (w i j : Nat)
    (hpix : ∀ row ∈ frame, ∀ p ∈ row, Pix8 p)
    (hi : i < max (newHeight frame.length (frameWidth frame) w) 1) (hj : j < w) :
    (cellD (frame_to_ascii_curses_color frame w) i j (' ', 0)).2
      = colorIndexOf (rgbOf (cellD (resizedClampedOf frame w) i j pix0))
  ∧ 16 ≤ (cellD (frame_to_ascii_curses_color frame w) i j (' ', 0)).2
  ∧ (cellD (frame_to_ascii_curses_color frame w) i j (' ', 0)).2 ≤ 231
  ∧ ∀ q : Rgb, q.r ≤ 255 → q.g ≤ 255 → q.b ≤ 255 →
      16 ≤ colorIndexOf q ∧ colorIndexOf q ≤ 231 := by
  have hcell := frame_to_ascii_curses_color_cellD frame w i j hi hj
  have hsample : cellD (resizedClampedOf frame w) i j pix0
      = samplePix frame (max (newHeight frame.length (frameWidth frame) w) 1) w i j := by
    unfold resizedClampedOf
    exact resize_cellD frame w _ i j hi hj
  have hp8 : Pix8 (cellD (resizedClampedOf frame w) i j pix0) := by
    rw [hsample]
    exact samplePix_Pix8 frame _ w i j hpix
  obtain ⟨hb, hg, hr⟩ := hp8
  have hbounds := colorIndexOf_bounds (rgbOf (cellD (resizedClampedOf frame w) i j pix0))
    hr hg hb
  refine ⟨by rw [hcell], ?_, ?_, fun q hqr hqg hqb => colorIndexOf_bounds q hqr hqg hqb⟩
  · rw [hcell]; exact hbounds.1
  · rw [hcell]; exact hbounds.2

/-- Witness for C4 at a 1x1 pure-blue frame (BGR `(255,0,0)`), target
width 1: the clamped height is 1 and the emitted palette index is
`16 + 5 = 21`. -/
theorem c4_palette_index_witness :
    (cellD (frame_to_ascii_curses_color [[⟨255, 0, 0⟩]] 1) 0 0 (' ', 0)).2
      = colorIndexOf (rgbOf (cellD (resizedClampedOf [[⟨255, 0, 0⟩]] 1) 0 0 pix0))
  ∧ colorIndexOf (rgbOf (cellD (resizedClampedOf [[⟨255, 0, 0⟩]] 1) 0 0 pix0)) = 21 :=
  ⟨(c4_palette_index [[⟨255, 0, 0⟩]] 1 0 0 (by decide) (by decide) (by decide)).1,
   by decide⟩

/-! ## Lemmas about the batching converter loop -/

theorem collectBatch_nil {α : Type} (k : Nat) :
    collectBatch k ([] : List (Option α)) = ([], [], false) := by
  cases k <;> rfl

theorem collectBatch_rest_le {α : Type} (k : Nat) (input : List (Option α)) :
    (collectBatch k input).2.1.length ≤ input.length := by
  induction k generalizing input with
  | zero => simp [collectBatch]
  | succ n ih =>
    cases input with
    | nil => simp [collectBatch]
    | cons x rest =>
      cases x with
      | none => simp [collectBatch]
      | some f =>
        simp only [collectBatch, List.length_cons]
        exact Nat.le_succ_of_le (ih rest)

theorem collectBatch_rest_lt {α : Type} (k : Nat) (input : List (Option α))
    (hk : 1 ≤ k) (hne : input ≠ []) :
    (collectBatch k input).2.1.length < input.length := by
  cases k with
  | zero => omega
  | succ n =>
    cases input with
    | nil => exact absurd rfl hne
    | cons x rest =>
      cases x with
      | none => simp [collectBatch]
      | some f =>
        simp only [collectBatch, List.length_cons]
        exact Nat.lt_succ_of_le (collectBatch_rest_le n rest)

theorem collectBatch_framesBeforeEOS {α : Type} (k : Nat) (input : List (Option α)) :
    framesBeforeEOS input
      = (collectBatch k input).1 ++
          (if (collectBatch k input).2.2 then []
           else framesBeforeEOS (collectBatch k input).2.1) := by
  induction k generalizing input with
  | zero => simp [collectBatch]
  | succ n ih =>
    cases input with
    | nil => simp [collectBatch, framesBeforeEOS]
    | cons x rest =>
      cases x with
      | none => simp [collectBatch, framesBeforeEOS]
      | some f =>
        simp only [collectBatch, framesBeforeEOS, List.cons_append, List.cons.injEq,
          true_and]
        exact ih rest

theorem collectBatch_not_stopped {α : Type} (k : Nat) (input : List (Option α))
    (h : (collectBatch k input).2.2 = false) :
    input = (collectBatch k input).1.map some ++ (collectBatch k input).2.1 := by
  induction k generalizing input with
  | zero => simp [collectBatch]
  | succ n ih =>
    cases input with
    | nil => simp [collectBatch]
    | cons x rest =>
      cases x with
      | none => simp [collectBatch] at h
      | some f =>
        simp only [collectBatch] at h ⊢
        simp only [List.map_cons, List.cons_append, List.cons.injEq, true_and]
        exact ih rest h

theorem convertLoop_eq_frames {α β : Type} (conv : α → β) (k : Nat)
    (hk : 1 ≤ k) : ∀ (fuel : Nat) (input : List (Option α)),
    input.length < fuel →
    convertLoop conv k fuel input = (framesBeforeEOS input).map conv := by
  intro fuel
  induction fuel with
  | zero => intro input h; omega
  | succ n ih =>
    intro input hlen
    cases hin : input with
    | nil =>
      simp [convertLoop, collectBatch_nil, framesBeforeEOS]
    | cons x rest =>
      rw [← hin]
      have hne : input ≠ [] := by rw [hin]; simp
      unfold convertLoop
      rw [collectBatch_framesBeforeEOS k input, List.map_append]
      by_cases hstop : (collectBatch k input).2.2
      · rw [if_pos hstop, if_pos hstop]
        simp
      · rw [if_neg hstop, if_neg hstop]
        rw [if_neg (by simp [hin])]
        congr 1
        exact ih (collectBatch k input).2.1
          (by have := collectBatch_rest_lt k input hk hne; omega)

/-! ## Claim C5: batch-size invariance of the converter output -/

/-- C5: for every finite input frame sequence and every batch size `k ≥ 1`,
the sequence of converted frames `convert_frames` enqueues on
`ascii_queue` with `batch_size = k` is identical, element by element and
in order, to the sequence it enqueues with `batch_size = 1` (both equal
the in-order conversion of the frames before the end-of-stream marker). -/
theorem c5_batch_invariance {α β : Type} (conv : α → β) (k : Nat)
    (input : List (Option α)) (hk : 1 ≤ k) :
    convert_frames conv k input = convert_frames conv 1 input := by
  unfold convert_frames
  rw [convertLoop_eq_frames conv k hk (input.length + 1) input (Nat.lt_succ_self _),
      convertLoop_eq_frames conv 1 (le_refl 1) (input.length + 1) input (Nat.lt_succ_self _)]

/-- Witness for C5: a three-frame stream followed by the EOS marker,
converted with batch size 3 and with batch size 1. -/
theorem c5_batch_invariance_witness :
    convert_frames Nat.succ 3 [some 0, some 1, some 2, none]
      = convert_frames Nat.succ 1 [some 0, some 1, some 2, none] :=
  c5_batch_invariance Nat.succ 3 [some 0, some 1, some 2, none] (by decide)

/-! ## Claim C7: order of the stop signal and the partial-batch flush -/

/-- C7 counterexample: with batch size 2 and a queue holding one frame
followed by the EOS marker, the trace of `convert_frames` is
`[setStop, enqueue _]`: the stop event is set during batch collection
(`main.py` line 219), before the partial batch is converted and
enqueued, so an enqueue does occur after the stop signal — the claimed
order (flush first, stop only afterwards) is violated. -/
theorem c7_counterexample :
    noEnqueueAfterStop (converter_trace Nat.succ 2 [some 0, none]) = false := by
  decide

theorem traceLoop_decomp {α β : Type} (conv : α → β) (k : Nat) (hk : 1 ≤ k) :
    ∀ (fuel : Nat) (input : List (Option α)), input.length < fuel →
    none ∈ input →
    ∃ (pre : List (PipeEv β)) (b : List α), traceLoop conv k fuel input
        = pre ++ PipeEv.setStop :: b.map (fun f => PipeEv.enqueue (conv f))
      ∧ PipeEv.setStop ∉ pre := by
  intro fuel
  induction fuel with
  | zero => intro input h; omega
  | succ n ih =>
    intro input hlen heos
    have hne : input ≠ [] := by rintro rfl; simp at heos
    unfold traceLoop
    by_cases hstop : (collectBatch k input).2.2
    · refine ⟨[], (collectBatch k input).1, ?_, by simp⟩
      rw [if_pos hstop, if_pos hstop]
      simp
    · have hdec := collectBatch_not_stopped k input (by simpa using hstop)
      have heos2 : none ∈ (collectBatch k input).2.1 := by
        rw [hdec] at heos
        rcases List.mem_append.mp heos with h | h
        · exfalso
          obtain ⟨f, _, hf⟩ := List.mem_map.mp h
          exact Option.some_ne_none f hf
        · exact h
      obtain ⟨pre, b, htr, hpre⟩ := ih (collectBatch k input).2.1
        (by have := collectBatch_rest_lt k input hk hne; omega) heos2
      refine ⟨(collectBatch k input).1.map (fun f => PipeEv.enqueue (conv f)) ++ pre, b,
        ?_, ?_⟩
      · rw [if_neg hstop, if_neg hstop, if_neg (by simp [hne]), htr]
        simp
      · intro hc
        rcases List.mem_append.mp hc with h | h
        · obtain ⟨f, _, hf⟩ := List.mem_map.mp h
          exact PipeEv.noConfusion hf
        · exact hpre h

theorem filterMap_enqVal_map {α β : Type} (conv : α → β) (l : List α) :
    (l.map fun f => PipeEv.enqueue (conv f)).filterMap enqVal = l.map conv := by
  induction l with
  | nil => rfl
  | cons x xs ih => simp [enqVal, ih]

theorem traceLoop_enqueues {α β : Type} (conv : α → β) (k : Nat) (hk : 1 ≤ k) :
    ∀ (fuel : Nat) (input : List (Option α)), input.length < fuel →
    (traceLoop conv k fuel input).filterMap enqVal = (framesBeforeEOS input).map conv := by
  intro fuel
  induction fuel with
  | zero => intro input h; omega
  | succ n ih =>
    intro input hlen
    cases hin : input with
    | nil =>
      simp [traceLoop, collectBatch_nil, framesBeforeEOS, enqVal]
    | cons x rest =>
      rw [← hin]
      have hne : input ≠ [] := by rw [hin]; simp
      unfold traceLoop
      rw [collectBatch_framesBeforeEOS k input, List.map_append]
      by_cases hstop : (collectBatch k input).2.2
      · simp only [if_pos hstop]
        rw [List.filterMap_append, List.filterMap_append, filterMap_enqVal_map]
        simp [enqVal]
      · simp only [if_neg hstop, if_neg (show ¬input.isEmpty = true by simp [hin])]
        rw [List.filterMap_append, List.filterMap_append, filterMap_enqVal_map,
          ih (collectBatch k input).2.1
            (by have := collectBatch_rest_lt k input hk hne; omega)]
        simp [enqVal]

/-- C7 (amended): on dequeuing the EOS marker the converter sets the
stop signal immediately, during batch collection and hence before the
flush; it then still converts and enqueues every frame of the current
partial batch after the stop event, and overall the enqueued frames are
exactly the in-order conversions of the frames before the EOS marker. -/
theorem c7_amended_stop_then_flush {α β : Type} (conv : α → β) (k : Nat)
    (input : List (Option α)) (hk : 1 ≤ k) (heos : none ∈ input) :
    (∃ (pre : List (PipeEv β)) (b : List α), converter_trace conv k input
        = pre ++ PipeEv.setStop :: b.map (fun f => PipeEv.enqueue (conv f))
      ∧ PipeEv.setStop ∉ pre)
  ∧ (converter_trace conv k input).filterMap enqVal
      = (framesBeforeEOS input).map conv := by
  unfold converter_trace
  exact ⟨traceLoop_decomp conv k hk (input.length + 1) input (Nat.lt_succ_self _) heos,
    traceLoop_enqueues conv k hk (input.length + 1) input (Nat.lt_succ_self _)⟩

/-- Witness for C7 at the counterexample input: batch size 2, one frame
then EOS. -/
theorem c7_amended_stop_then_flush_witness :
    (∃ (pre : List (PipeEv Nat)) (b : List Nat), converter_trace Nat.succ 2 [some 0, none]
        = pre ++ PipeEv.setStop :: b.map (fun f => PipeEv.enqueue (Nat.succ f))
      ∧ PipeEv.setStop ∉ pre)
  ∧ (converter_trace Nat.succ 2 [some 0, none]).filterMap enqVal
      = (framesBeforeEOS [some 0, none]).map Nat.succ :=
  c7_amended_stop_then_flush Nat.succ 2 [some 0, none] (by decide) (by decide)

/-! ## Claim C6: extractor behaviour on open failure -/

/-- C6 counterexample: in a run where `cap.isOpened()` is false at
start, `extract_frames` prints the error and returns before the
`try/finally` block (`main.py` lines 177-179), so the end-of-stream
marker is never enqueued: the number of `None` tokens on `raw_queue` is
0, not the claimed exactly 1. -/
theorem c6_counterexample :
    ¬ (extract_frames false ([0] : List Nat)).count (none : Option Nat) = 1 := by
  decide

/-- C6 (amended): if opening the video source fails the extractor
reports the error and returns without enqueuing anything — neither
frames nor the end-of-stream marker; only a successful open produces the
read frames in order followed by exactly one end-of-stream marker. -/
theorem c6_amended_open_failure (reads : List Nat) :
    extract_frames false reads = []
  ∧ (extract_frames true reads).count (none : Option Nat) = 1
  ∧ (extract_frames true reads).filterMap id = reads := by
  refine ⟨rfl, ?_, ?_⟩
  · unfold extract_frames
    rw [if_pos rfl, List.count_append]
    have h0 : (reads.map some).count (none : Option Nat) = 0 := by
      rw [List.count_eq_zero]
      intro hmem
      obtain ⟨f, _, hf⟩ := List.mem_map.mp hmem
      exact Option.some_ne_none f hf
    rw [h0]
    rfl
  · unfold extract_frames
    rw [if_pos rfl, List.filterMap_append, List.filterMap_map]
    simp

/-! ## Claim C8: audio callback drift correction -/

/-- C8: in every callback invocation that does not hit end-of-stream at
entry, after the speculative advance `audio_time += frames / samplerate`
every pending `set_time(t)` command is drained in order; when the last
pending command `t` differs from the (drained-so-far) clock by more than
the tolerance, the callback snaps `audio_time = t`, recomputes the start
sample index as `floor(t * samplerate)`, and the samples delivered by
this callback begin at exactly that index. -/
theorem c8_drift_snap (sr tol : ℚ) (total frames : Nat) (st : APState)
    (pre : List ℚ) (t : ℚ)
    (hentry : Int.floor (st.audio_time * sr) < (total : ℤ))
    (hp : st.pending = pre ++ [t])
    (hsnap : tol < |(snapFold sr tol
        (st.audio_time + (frames : ℚ) / sr, Int.floor (st.audio_time * sr)) pre).1 - t|) :
    (AudioPlayer.audio_callback sr tol total frames st).audio_time = t
  ∧ ∀ d ∈ (AudioPlayer.audio_callback sr tol total frames st).delivered,
      d.1 = Int.floor (t * sr) := by
  have hfold : snapFold sr tol
      (st.audio_time + (frames : ℚ) / sr, Int.floor (st.audio_time * sr)) st.pending
      = (t, Int.floor (t * sr)) := by
    rw [hp]
    unfold snapFold
    rw [List.foldl_append]
    simp only [List.foldl_cons, List.foldl_nil]
    show snapStep sr tol (snapFold sr tol
      (st.audio_time + (frames : ℚ) / sr, Int.floor (st.audio_time * sr)) pre) t
        = (t, Int.floor (t * sr))
    unfold snapStep
    rw [if_pos hsnap]
  unfold AudioPlayer.audio_callback
  rw [if_neg (by omega), hfold]
  by_cases h1 : Int.floor (t * sr) + (frames : ℤ) ≤ (total : ℤ)
  · rw [if_pos h1]
    exact ⟨rfl, by intro d hd; simp at hd; rw [← hd]⟩
  · rw [if_neg h1]
    by_cases h2 : 0 < (total : ℤ) - Int.floor (t * sr)
    · rw [if_pos h2]
      exact ⟨rfl, by intro d hd; simp at hd; rw [← hd]⟩
    · rw [if_neg h2]
      exact ⟨rfl, by intro d hd; simp at hd⟩

/-- Witness for C8, the audio-drift scenario of the specification:
sample rate 48000, tolerance 100 ms, a 480000-sample buffer, a 1024
frame request, audio clock 0 and one pending hint `set_time(1.0)`: the
callback snaps the clock to 1.0 and the delivered samples begin at
sample index 48000. -/
theorem c8_drift_snap_witness :
    (AudioPlayer.audio_callback 48000 (1/10) 480000 1024 ⟨0, [1]⟩).audio_time = 1
  ∧ ∀ d ∈ (AudioPlayer.audio_callback 48000 (1/10) 480000 1024 ⟨0, [1]⟩).delivered,
      d.1 = Int.floor ((1 : ℚ) * 48000) :=
  c8_drift_snap 48000 (1/10) 480000 1024 ⟨0, [1]⟩ [] 1
    (by norm_num)
    rfl
    (by unfold snapFold; simp only [List.foldl_nil]; norm_num; rw [abs_of_nonneg (by norm_num)]; norm_num)

/-! ## Claim C10: idempotence of AudioPlayer.stop -/

/-- C10 (implicit): `AudioPlayer.stop` is idempotent — once
`should_stop` is set (by a previous `stop` or by the callback reaching
end of stream), a further call returns immediately and leaves `stream`,
`audio_clip`, `audio_array`, `initialized` and `playback_started`
unchanged. -/
theorem c10_stop_idempotent {S C A : Type} (st : AudioPlayer.State S C A) :
    AudioPlayer.stop (AudioPlayer.stop st) = AudioPlayer.stop st
  ∧ (st.should_stop = true → AudioPlayer.stop st = st) := by
  constructor
  · unfold AudioPlayer.stop
    by_cases h : st.should_stop
    · rw [if_pos h, if_pos h]
    · rw [if_neg h, if_pos rfl]
  · intro h
    unfold AudioPlayer.stop
    rw [if_pos h]

/-- Witness for C10 at a concrete already-stopped player state. -/
theorem c10_stop_idempotent_witness :
    AudioPlayer.stop (⟨true, some 0, some 0, some 0, true, true⟩ :
        AudioPlayer.State Nat Nat Nat)
      = ⟨true, some 0, some 0, some 0, true, true⟩ :=
  (c10_stop_idempotent ⟨true, some 0, some 0, some 0, true, true⟩).2 rfl
